import Mathlib

/-!
Verification of the ChordMaster audio engine.

Shallow embedding of the audio synthesis engine of this repository.
The engine exists in two variants:

* `src/unnamed/part_001` — a complete, simpler engine (no reverb bus);
  its class `AudioEngine` with `init`, `midiToFreq`, `startChord`,
  `stopChord`, `playNotes` is embedded below as the state-transformer
  functions on `EngineState`.
* `src/services/audioEngine.ts` — the richer engine with a reverb mix
  bus; its `init`, `generateReverbImpulse` and `midiToFreq` are complete
  in the source and embedded below (`initA`, `generateReverbImpulse`,
  `midiToFreq`); the file is truncated right at the start of the
  per-note cleanup-handler registration, so the registration tail and
  the variant's `stopChord` and `playNotes` are modelled from the spec
  where needed (marked in doc comments).

Modelling conventions: clock times, gain levels and detune values are
rationals (the source computes with doubles on exactly representable
decimal constants); the ambient `Math.random()` stream is passed in as
an explicit function `ℕ → ℚ` (draw index to drawn value in [0,1));
the Web Audio side effects are recorded in an append-only event log
(oscillator starts/stops and gain-automation calls), and the voice
registry `activeNodes` holds one record per `{stop, release}` pair the
source pushes.
-/

namespace ChordMaster

/-- Instrument selector, from `src/types.ts` (`InstrumentType`). -/
inductive Instrument where
  | Piano
  | Guitar
  | Violin
deriving DecidableEq

/-- Piano timbre selector, from `src/types.ts` (`PianoTimbre`). -/
inductive Timbre where
  | Grand
  | Electric
  | HonkyTonk
deriving DecidableEq

/-- Web Audio oscillator wave type (the subset the engine uses). -/
inductive OscType where
  | sine
  | triangle
  | sawtooth
deriving DecidableEq

/-- Kind of a gain-automation breakpoint: `setValueAtTime`,
`linearRampToValueAtTime` or `exponentialRampToValueAtTime`. -/
inductive CurveKind where
  | setValue
  | linearRamp
  | expRamp
deriving DecidableEq

/-- One scheduled gain-automation breakpoint: reach `target` at absolute
clock time `time` along curve `curve`. -/
structure Breakpoint where
  time : ℚ
  target : ℚ
  curve : CurveKind
deriving DecidableEq

/-- The per-voice synthesis parameters the `part_001` voice builder
chooses per instrument/timbre branch: primary oscillator type, its
detune (cents) and the amplitude-envelope breakpoints scheduled on the
voice's gain node.  (Filter wiring is part of the source branches but
is not tracked here; the claims under verification concern oscillator
type, detune and the gain envelope.) -/
structure VoiceParams where
  oscType : OscType
  detune : ℚ
  envelope : List Breakpoint
deriving DecidableEq

/-- Voice builder of `src/unnamed/part_001`, `startChord` lines 50-144:
the per-note `switch (instrument)` choosing oscillator type, detune and
gain envelope.  `t` is the note's scheduled start time, `draw` the
`Math.random()` value consumed by the HonkyTonk branch (line 66:
`osc.detune.value = (Math.random() * 10) - 5`); every other branch
leaves the detune at its default 0 and ignores the random source. -/
def voiceParams (instr : Instrument) (timbre : Timbre) (t : ℚ) (draw : ℚ) :
    VoiceParams :=
  match instr with
  | .Piano =>
    match timbre with
    | .Electric =>
        ⟨.sine, 0,
         [⟨t, 0, .setValue⟩, ⟨t + 1/50, 3/5, .linearRamp⟩,
          ⟨t + 3/2, 3/10, .expRamp⟩]⟩
    | .HonkyTonk =>
        ⟨.sawtooth, draw * 10 - 5,
         [⟨t, 0, .setValue⟩, ⟨t + 1/100, 1/2, .linearRamp⟩,
          ⟨t + 3/5, 1/100, .expRamp⟩]⟩
    | .Grand =>
        ⟨.triangle, 0,
         [⟨t, 0, .setValue⟩, ⟨t + 3/200, 4/5, .linearRamp⟩,
          ⟨t + 3, 1/10, .expRamp⟩]⟩
  | .Guitar =>
      ⟨.sawtooth, 0,
       [⟨t, 0, .setValue⟩, ⟨t + 1/20, 4/5, .linearRamp⟩,
        ⟨t + 2, 3/10, .expRamp⟩]⟩
  | .Violin =>
      ⟨.sawtooth, 0,
       [⟨t, 0, .setValue⟩, ⟨t + 1/2, 7/10, .linearRamp⟩]⟩

/-- One entry of the voice registry `activeNodes` of
`src/unnamed/part_001`: a `{stop, release}` pair.  `main` is the pair
pushed for every note (lines 150-159, closing over the note's
oscillator and gain node); `vibLfo` is the extra pair pushed by the
Violin branch for its vibrato LFO (lines 139-142, whose `release` is
the no-op `() => {}`). -/
inductive ActiveNode where
  | main (id : ℕ) (midi : ℤ) (startTime : ℚ) (params : VoiceParams)
  | vibLfo (id : ℕ) (startTime : ℚ)
deriving DecidableEq

/-- The scheduled start time of a registry entry. -/
def ActiveNode.start : ActiveNode → ℚ
  | .main _ _ t _ => t
  | .vibLfo _ t => t

/-- Observable Web Audio calls the engine issues, recorded in an
append-only log.  `id` identifies the node (same numbering as the
registry entries); times are absolute audio-clock times. -/
inductive AEvent where
  | oscStart (id : ℕ) (t : ℚ)
  | lfoStart (id : ℕ) (t : ℚ)
  | gainCancel (id : ℕ) (t : ℚ)
  | gainSetCurrent (id : ℕ) (t : ℚ)
  | gainRampExp (id : ℕ) (target : ℚ) (t : ℚ)
  | oscStop (id : ℕ) (t : ℚ)
  | lfoStop (id : ℕ) (t : ℚ)
deriving DecidableEq

/-- The absolute clock time an event is scheduled at. -/
def eventTime : AEvent → ℚ
  | .oscStart _ t => t
  | .lfoStart _ t => t
  | .gainCancel _ t => t
  | .gainSetCurrent _ t => t
  | .gainRampExp _ _ t => t
  | .oscStop _ t => t
  | .lfoStop _ t => t

/-- Whether an event is a hard stop of oscillator node `id`. -/
def stopsOsc (id : ℕ) : AEvent → Bool
  | .oscStop j _ => j == id
  | .lfoStop j _ => j == id
  | _ => false

/-- Whether an event is a start of oscillator node `id`. -/
def startsOsc (id : ℕ) : AEvent → Bool
  | .oscStart j _ => j == id
  | .lfoStart j _ => j == id
  | _ => false

/-- The `release` closure of a registry entry of `src/unnamed/part_001`,
as the list of Web Audio calls it makes when invoked at time `t`.
For a `main` entry (lines 152-158): `gain.gain.cancelScheduledValues(t)`,
`gain.gain.setValueAtTime(gain.gain.value, t)`,
`gain.gain.exponentialRampToValueAtTime(0.001, t + 0.3)`,
`osc.stop(t + 0.35)`.  For the Violin LFO entry (line 141) the release
is `() => {}`: no calls at all. -/
def releaseEvents (nd : ActiveNode) (t : ℚ) : List AEvent :=
  match nd with
  | .main id _ _ _ =>
      [.gainCancel id t, .gainSetCurrent id t,
       .gainRampExp id (1/1000) (t + 3/10), .oscStop id (t + 7/20)]
  | .vibLfo _ _ => []

/-- The `stop` closure of a registry entry of `src/unnamed/part_001`
(line 151 resp. line 140).  No engine entry point ever invokes it
(`stopChord` calls only `release`); it is embedded for completeness. -/
def stopEvents (nd : ActiveNode) (t : ℚ) : List AEvent :=
  match nd with
  | .main id _ _ _ => [.oscStop id t]
  | .vibLfo id _ => [.lfoStop id t]

/-- State of the `src/unnamed/part_001` `AudioEngine` instance:
`ctx` is `some currentTime` once the `AudioContext` exists, `masterGain`
the master gain value once created, `activeNodes` the voice registry,
`events` the append-only log of issued Web Audio calls, `timers` the
pending `setTimeout` auto-stop delays scheduled by `playNotes`
(seconds), and `nextId` the next fresh node id. -/
structure EngineState where
  ctx : Option ℚ
  masterGain : Option ℚ
  activeNodes : List ActiveNode
  events : List AEvent
  timers : List ℚ
  nextId : ℕ
deriving DecidableEq

/-- The freshly constructed engine (`src/unnamed/part_001` lines 4-6:
`ctx = null`, `masterGain = null`, `activeNodes = []`). -/
def initialState : EngineState :=
  { ctx := none, masterGain := none, activeNodes := [], events := [],
    timers := [], nextId := 0 }

/-- `init` of `src/unnamed/part_001` (lines 12-22): if no context
exists yet, construct it and the master gain (value 0.4) and wire them;
otherwise leave everything untouched.  `avail` models whether the
platform can supply an `AudioContext` (construction succeeds); a fresh
context's clock starts at 0.  The `resume()` of a suspended context has
no observable in this model and is omitted. -/
def init (avail : Bool) (s : EngineState) : EngineState :=
  match s.ctx with
  | some _ => s
  | none =>
      if avail then { s with ctx := some 0, masterGain := some (2/5) }
      else s

/-- `stopChord` of `src/unnamed/part_001` (lines 163-172): return
immediately if there is no context or no registered voice; otherwise
invoke every registry entry's `release` at the current clock time and
clear the registry. -/
def stopChord (s : EngineState) : EngineState :=
  match s.ctx with
  | none => s
  | some now =>
      if s.activeNodes.isEmpty then s
      else
        { s with
          events := s.events ++
            s.activeNodes.flatMap (fun nd => releaseEvents nd now),
          activeNodes := [] }

/-- The scheduled start time of the note at position `idx` of a chord
(`src/unnamed/part_001` lines 38-39): `now` plus a stagger of 0 for
Piano and `idx * 0.03` otherwise. -/
def noteStartTime (instr : Instrument) (now : ℚ) (idx : ℕ) : ℚ :=
  now + (if instr = .Piano then 0 else (idx : ℚ) * (3/100))

/-- Registry entries per note: the Violin branch pushes its vibrato-LFO
cleanup pair in addition to the note's main pair. -/
def entriesPerNote (instr : Instrument) : ℕ :=
  if instr = .Violin then 2 else 1

/-- The registry entries one note pushes, in push order
(`src/unnamed/part_001`: LFO pair at lines 139-142 inside the Violin
case, then the note's main pair at lines 150-159).  `id` is the first
fresh node id. -/
def noteEntries (instr : Instrument) (timbre : Timbre) (now : ℚ)
    (draw : ℚ) (idx id : ℕ) (midi : ℤ) : List ActiveNode :=
  let t := noteStartTime instr now idx
  if instr = .Violin then
    [.vibLfo id t, .main (id + 1) midi t (voiceParams instr timbre t draw)]
  else
    [.main id midi t (voiceParams instr timbre t draw)]

/-- The node-start calls one note issues, in issue order
(`src/unnamed/part_001`: `lfo.start(startTime)` at line 130 inside the
Violin case, then `osc.start(startTime)` at line 147). -/
def noteEvents (instr : Instrument) (now : ℚ) (idx id : ℕ) : List AEvent :=
  let t := noteStartTime instr now idx
  if instr = .Violin then [.lfoStart id t, .oscStart (id + 1) t]
  else [.oscStart id t]

/-- The `midiNotes.forEach((note, index) => ...)` body of `startChord`
in `src/unnamed/part_001` (lines 35-160), as a recursion over the note
list carrying the running index.  Note `idx`'s `Math.random()` draw is
`rng idx` (only the HonkyTonk branch consumes it). -/
def buildLoop (instr : Instrument) (timbre : Timbre) (now : ℚ)
    (rng : ℕ → ℚ) : ℕ → List ℤ → EngineState → EngineState
  | _, [], s => s
  | idx, midi :: rest, s =>
      buildLoop instr timbre now rng (idx + 1) rest
        { s with
          activeNodes := s.activeNodes ++
            noteEntries instr timbre now (rng idx) idx s.nextId midi,
          events := s.events ++ noteEvents instr now idx s.nextId,
          nextId := s.nextId +
            (noteEntries instr timbre now (rng idx) idx s.nextId midi).length }

/-- `startChord` of `src/unnamed/part_001` (lines 28-161): `init()`,
then `stopChord()` (stop previous notes), then the defensive guard
`if (!this.ctx || !this.masterGain) return;`, then one voice per note
built and registered in input order. -/
def startChord (avail : Bool) (rng : ℕ → ℚ) (notes : List ℤ)
    (instr : Instrument) (timbre : Timbre) (s : EngineState) : EngineState :=
  let s1 := stopChord (init avail s)
  match s1.ctx, s1.masterGain with
  | some now, some _ => buildLoop instr timbre now rng 0 notes s1
  | _, _ => s1

/-- `playNotes` of `src/unnamed/part_001` (lines 175-181): `startChord`
immediately, then `setTimeout(() => this.stopChord(), 1200)` — record a
pending 1.2-second auto-stop timer. -/
def playNotes (avail : Bool) (rng : ℕ → ℚ) (notes : List ℤ)
    (instr : Instrument) (timbre : Timbre) (s : EngineState) : EngineState :=
  let s1 := startChord avail rng notes instr timbre s
  { s1 with timers := s1.timers ++ [6/5] }

/-- Firing of a pending `playNotes` timer: the timer is removed and its
callback `() => this.stopChord()` runs. -/
def fireTimer (s : EngineState) : EngineState :=
  stopChord { s with timers := s.timers.drop 1 }

/-- Pitch converter `midiToFreq` of both engine variants
(`src/services/audioEngine.ts` lines 59-61, `src/unnamed/part_001`
lines 24-26): `440 * Math.pow(2, (midi - 69) / 12)`, in real-number
semantics. -/
noncomputable def midiToFreq (midi : ℤ) : ℝ :=
  440 * (2 : ℝ) ^ (((midi : ℝ) - 69) / 12)

/-- The deterministic decay envelope of the reverb impulse
(`src/services/audioEngine.ts` lines 51-52): sample `i` of a buffer of
`len` samples is scaled by `Math.pow(1 - i / len, decay)`.  The source
declares `decay` as a double but the engine's only call passes `2.0`
(line 24); it is modelled as a natural exponent, on which `Math.pow`
and the natural power agree. -/
def impulseEnvelope (len : ℕ) (decay : ℕ) (i : ℕ) : ℚ :=
  (1 - (i : ℚ) / (len : ℚ)) ^ decay

/-- `generateReverbImpulse` of `src/services/audioEngine.ts` (lines
42-57): a stereo buffer of `length = rate * duration` samples per
channel; per loop iteration `i` the left channel draws
`Math.random()` first (draw index `2*i`) and the right channel second
(draw index `2*i + 1`), each sample being
`(draw * 2 - 1) * (1 - i/length)^decay`.  `duration` is modelled as a
natural number of seconds (the source passes `2.0`). -/
def generateReverbImpulse (rng : ℕ → ℚ) (rate duration decay : ℕ) :
    List ℚ × List ℚ :=
  let len := rate * duration
  ((List.range len).map
      (fun i => (rng (2 * i) * 2 - 1) * impulseEnvelope len decay i),
   (List.range len).map
      (fun i => (rng (2 * i + 1) * 2 - 1) * impulseEnvelope len decay i))

/-- Mean squared amplitude of the `k`-th window of `w` samples of a
buffer (the spec's per-time-bucket energy, §8). -/
def windowEnergy (xs : List ℚ) (w k : ℕ) : ℚ :=
  (((xs.drop (k * w)).take w).map (fun x => x * x)).sum / (w : ℚ)

/-- A concrete admissible `Math.random()` stream (all values in
[0, 1)): the first two loop iterations draw 1/2 (silent samples), the
later ones draw 99/100. -/
def rngCex : ℕ → ℚ := fun k => if k = 4 ∨ k = 6 then 99 / 100 else 1 / 2

/-- One tone oscillator of a `src/services/audioEngine.ts` voice: wave
type and detune in cents. -/
structure AeOsc where
  wave : OscType
  detune : ℚ
deriving DecidableEq

/-- The tone-oscillator layout per instrument/timbre branch of
`startChord` in `src/services/audioEngine.ts` (lines 85-274; LFOs used
for tremolo/vibrato are not listed).  Electric: sine + triangle (lines
90-96); HonkyTonk: two sawtooths, the second with the constant
`osc2.detune.value = 15` (lines 139-146); Grand: two triangles (second
detuned 6) plus a sine (lines 169-180); Guitar: one sawtooth (lines
221-223); Violin: one sawtooth (lines 241-243).  No branch consumes a
random source. -/
def aeOscillators (instr : Instrument) (timbre : Timbre) : List AeOsc :=
  match instr with
  | .Piano =>
    match timbre with
    | .Electric => [⟨.sine, 0⟩, ⟨.triangle, 0⟩]
    | .HonkyTonk => [⟨.sawtooth, 0⟩, ⟨.sawtooth, 15⟩]
    | .Grand => [⟨.triangle, 0⟩, ⟨.triangle, 6⟩, ⟨.sine, 0⟩]
  | .Guitar => [⟨.sawtooth, 0⟩]
  | .Violin => [⟨.sawtooth, 0⟩]

/-- The mix bus of `src/services/audioEngine.ts` (lines 19-34): master
gain value, reverb-send gain value, and the convolver's impulse
buffer. -/
structure MixBus where
  masterLevel : ℚ
  reverbLevel : ℚ
  impulse : List ℚ × List ℚ
deriving DecidableEq

/-- State of the `src/services/audioEngine.ts` engine instance, to the
extent the file (truncated at line 277) determines it: the context,
the mix bus, a counter of context/bus constructions (for the
created-once property), the voice registry as (midi, startTime) pairs,
and pending auto-stop timers. -/
structure AeState where
  ctxA : Option ℚ
  bus : Option MixBus
  busCreations : ℕ
  activeA : List (ℤ × ℚ × List AeOsc)
  timersA : List ℚ
deriving DecidableEq

/-- The freshly constructed richer engine (`src/services/audioEngine.ts`
lines 4-8). -/
def initialAeState : AeState :=
  { ctxA := none, bus := none, busCreations := 0, activeA := [], timersA := [] }

/-- `init` of `src/services/audioEngine.ts` (lines 14-39): if no
context exists, construct the context, the master gain (value 0.3),
the convolver with `generateReverbImpulse(2.0, 2.0)` as its buffer and
the reverb-send gain (value 0.35), and wire the dry and wet paths;
otherwise leave everything untouched.  `rng` is the random stream the
impulse generation consumes, `rate` the context's sample rate, `avail`
whether an `AudioContext` can be constructed. -/
def initA (avail : Bool) (rng : ℕ → ℚ) (rate : ℕ) (s : AeState) : AeState :=
  match s.ctxA with
  | some _ => s
  | none =>
      if avail then
        { s with ctxA := some 0,
                 bus := some ⟨3/10, 7/20, generateReverbImpulse rng rate 2 2⟩,
                 busCreations := s.busCreations + 1 }
      else s

/-- Modelled from the spec: `stopChord` of `src/services/audioEngine.ts`
is missing from the truncated source.  Per spec §4.5 it is idempotent,
a no-op without context or registered voices, and otherwise releases
every registered voice and clears the registry; it never touches the
mix bus (its complete counterpart `src/unnamed/part_001` lines 163-172
agrees). -/
def stopChordA (s : AeState) : AeState :=
  match s.ctxA with
  | none => s
  | some _ => { s with activeA := [] }

/-- The scheduled start time of the note at position `idx` in the
`src/services/audioEngine.ts` variant (lines 72-74): stagger 0 for
Piano, `idx * 0.04` otherwise. -/
def noteStartTimeA (instr : Instrument) (now : ℚ) (idx : ℕ) : ℚ :=
  now + (if instr = .Piano then 0 else (idx : ℚ) * (1/25))

/-- `startChord` of `src/services/audioEngine.ts` (lines 63-277): the
visible part is `init()`, `stopChord()`, the guard
`if (!this.ctx || !this.masterGain) return;` and the per-note staggered
voice construction; the per-note registration of the `{stop, release}`
pair is cut off by the truncation and is modelled from the spec (§4.5:
one Voice registered per note, in input order); each registered voice
carries the oscillator layout chosen by the visible per-note branch. -/
def startChordA (avail : Bool) (rng : ℕ → ℚ) (rate : ℕ) (notes : List ℤ)
    (instr : Instrument) (timbre : Timbre) (s : AeState) : AeState :=
  let s1 := stopChordA (initA avail rng rate s)
  match s1.ctxA, s1.bus with
  | some now, some _ =>
      { s1 with activeA := s1.activeA ++
          (notes.mapIdx fun i m =>
            (m, noteStartTimeA instr now i, aeOscillators instr timbre)) }
  | _, _ => s1

/-- Modelled from the spec: `playNotes` of `src/services/audioEngine.ts`
is missing from the truncated source.  Per spec §4.5 it is `startChord`
immediately plus a deferred `stopChord` after a fixed ~1.2 s delay
(its complete counterpart `src/unnamed/part_001` lines 175-181
agrees). -/
def playNotesA (avail : Bool) (rng : ℕ → ℚ) (rate : ℕ) (notes : List ℤ)
    (instr : Instrument) (timbre : Timbre) (s : AeState) : AeState :=
  let s1 := startChordA avail rng rate notes instr timbre s
  { s1 with timersA := s1.timersA ++ [6/5] }

/-- Firing of a pending auto-stop timer of the richer variant. -/
def fireTimerA (s : AeState) : AeState :=
  stopChordA { s with timersA := s.timersA.drop 1 }

/-- One call through the public surface of the
`src/services/audioEngine.ts` engine (plus timer expiry). -/
inductive AeOp where
  | start (rng : ℕ → ℚ) (notes : List ℤ) (instr : Instrument) (timbre : Timbre)
  | stop
  | play (rng : ℕ → ℚ) (notes : List ℤ) (instr : Instrument) (timbre : Timbre)
  | fire

/-- Interpret one public call on the engine state. -/
def applyA (avail : Bool) (rate : ℕ) (s : AeState) : AeOp → AeState
  | .start rng notes instr timbre => startChordA avail rng rate notes instr timbre s
  | .stop => stopChordA s
  | .play rng notes instr timbre => playNotesA avail rng rate notes instr timbre s
  | .fire => fireTimerA s

/-- Closed form of the registry entries `buildLoop` appends: the
concatenation of each note's entries, indices from `idx` and node ids
from `id` on. -/
def builtNodes (instr : Instrument) (timbre : Timbre) (now : ℚ)
    (rng : ℕ → ℚ) : ℕ → ℕ → List ℤ → List ActiveNode
  | _, _, [] => []
  | idx, id, midi :: rest =>
      noteEntries instr timbre now (rng idx) idx id midi ++
        builtNodes instr timbre now rng (idx + 1) (id + entriesPerNote instr) rest

/-- Closed form of the node-start events `buildLoop` appends. -/
def builtEvents (instr : Instrument) (now : ℚ) :
    ℕ → ℕ → List ℤ → List AEvent
  | _, _, [] => []
  | idx, id, _ :: rest =>
      noteEvents instr now idx id ++
        builtEvents instr now (idx + 1) (id + entriesPerNote instr) rest

theorem noteEntries_length (instr : Instrument) (timbre : Timbre) (now : ℚ)
    (draw : ℚ) (idx id : ℕ) (midi : ℤ) :
    (noteEntries instr timbre now draw idx id midi).length =
      entriesPerNote instr := by
  unfold noteEntries entriesPerNote
  split <;> simp

theorem buildLoop_spec (instr : Instrument) (timbre : Timbre) (now : ℚ)
    (rng : ℕ → ℚ) :
    ∀ (notes : List ℤ) (idx : ℕ) (s : EngineState),
      buildLoop instr timbre now rng idx notes s =
        { s with
          activeNodes := s.activeNodes ++
            builtNodes instr timbre now rng idx s.nextId notes,
          events := s.events ++ builtEvents instr now idx s.nextId notes,
          nextId := s.nextId + entriesPerNote instr * notes.length } := by
  intro notes
  induction notes with
  | nil =>
      intro idx s
      simp [buildLoop, builtNodes, builtEvents]
  | cons midi rest ih =>
      intro idx s
      rw [buildLoop, ih]
      simp only [builtNodes, builtEvents, noteEntries_length,
        List.append_assoc, List.length_cons]
      refine congrArg (fun x => EngineState.mk s.ctx s.masterGain _ _ s.timers x) ?_
      ring

theorem stopChord_ctx (s : EngineState) : (stopChord s).ctx = s.ctx := by
  unfold stopChord
  split <;> [skip; split] <;> rfl

theorem stopChord_masterGain (s : EngineState) :
    (stopChord s).masterGain = s.masterGain := by
  unfold stopChord
  split <;> [skip; split] <;> rfl

theorem stopChord_nextId (s : EngineState) : (stopChord s).nextId = s.nextId := by
  unfold stopChord
  split <;> [skip; split] <;> rfl

theorem stopChord_timers (s : EngineState) : (stopChord s).timers = s.timers := by
  unfold stopChord
  split <;> [skip; split] <;> rfl

/-- Once the context exists, `stopChord` always leaves an empty
registry (either it was empty, or it is cleared). -/
theorem stopChord_activeNodes (s : EngineState) (h : s.ctx.isSome) :
    (stopChord s).activeNodes = [] := by
  unfold stopChord
  match hc : s.ctx with
  | none => rw [hc] at h; simp at h
  | some now =>
      simp only
      split
      case isTrue he => exact List.isEmpty_iff.mp he
      case isFalse => rfl

/-- `stopChord` on an initialized engine, spelled out: the release
calls of every registered entry are appended to the log, in
registration order, and the registry empties. -/
theorem stopChord_eq (s : EngineState) (now : ℚ) (h : s.ctx = some now) :
    stopChord s =
      { s with
        events := s.events ++
          s.activeNodes.flatMap (fun nd => releaseEvents nd now),
        activeNodes := [] } := by
  unfold stopChord
  rw [h]
  simp only
  split
  case isTrue he =>
      have hn : s.activeNodes = [] := List.isEmpty_iff.mp he
      cases s
      simp_all
  case isFalse => rfl

/-- Full characterization of `startChord` on an initialized engine:
the previous registry is drained (all release calls logged) before any
new node-start call, and afterwards the registry holds exactly the new
chord's entries. -/
theorem startChord_spec (avail : Bool) (rng : ℕ → ℚ) (notes : List ℤ)
    (instr : Instrument) (timbre : Timbre) (s : EngineState) (now g : ℚ)
    (hc : s.ctx = some now) (hg : s.masterGain = some g) :
    startChord avail rng notes instr timbre s =
      { ctx := some now, masterGain := some g,
        activeNodes := builtNodes instr timbre now rng 0 s.nextId notes,
        events := s.events ++
          s.activeNodes.flatMap (fun nd => releaseEvents nd now) ++
          builtEvents instr now 0 s.nextId notes,
        timers := s.timers,
        nextId := s.nextId + entriesPerNote instr * notes.length } := by
  have hi : init avail s = s := by unfold init; rw [hc]
  unfold startChord
  rw [hi, stopChord_eq s now hc]
  simp only [hc, hg]
  rw [buildLoop_spec]
  simp

theorem stopChord_of_none (s : EngineState) (h : s.ctx = none) :
    stopChord s = s := by
  unfold stopChord
  rw [h]

theorem stopChord_of_empty (s : EngineState) (h : s.activeNodes = []) :
    stopChord s = s := by
  unfold stopChord
  rcases hc : s.ctx with _ | now
  · rfl
  · simp [h]

theorem init_of_some (s : EngineState) (h : s.ctx.isSome) :
    init avail s = s := by
  unfold init
  rcases hc : s.ctx with _ | now
  · rw [hc] at h; simp at h
  · rfl

theorem init_ctx_isSome (s : EngineState) : ((init true s).ctx).isSome := by
  unfold init
  rcases hc : s.ctx with _ | now <;> simp [hc]

theorem startChord_ctx_isSome (rng : ℕ → ℚ) (notes : List ℤ)
    (instr : Instrument) (timbre : Timbre) (s : EngineState) :
    ((startChord true rng notes instr timbre s).ctx).isSome := by
  unfold startChord
  have h1 : (stopChord (init true s)).ctx = (init true s).ctx :=
    stopChord_ctx (init true s)
  rcases hc : (stopChord (init true s)).ctx with _ | now
  · rw [hc] at h1
    have := init_ctx_isSome s
    rw [← h1] at this
    simp at this
  · rcases hg : (stopChord (init true s)).masterGain with _ | g
    · simp [hc, hg]
    · simp only [hc, hg]
      rw [buildLoop_spec]
      simp [hc]

theorem startChord_timers (avail : Bool) (rng : ℕ → ℚ) (notes : List ℤ)
    (instr : Instrument) (timbre : Timbre) (s : EngineState) :
    (startChord avail rng notes instr timbre s).timers = s.timers := by
  unfold startChord
  have h0 : (init avail s).timers = s.timers := by
    unfold init
    rcases hc : s.ctx with _ | now <;> simp
    split <;> rfl
  have h1 : (stopChord (init avail s)).timers = (init avail s).timers :=
    stopChord_timers (init avail s)
  rcases hc : (stopChord (init avail s)).ctx with _ | now <;>
    rcases hg : (stopChord (init avail s)).masterGain with _ | g <;>
      simp only [hc, hg] <;> try rw [h1, h0]
  rw [buildLoop_spec]
  simp only
  rw [h1, h0]

theorem builtNodes_length (instr : Instrument) (timbre : Timbre) (now : ℚ)
    (rng : ℕ → ℚ) :
    ∀ (notes : List ℤ) (idx id : ℕ),
      (builtNodes instr timbre now rng idx id notes).length =
        entriesPerNote instr * notes.length := by
  intro notes
  induction notes with
  | nil => intro idx id; simp [builtNodes]
  | cons midi rest ih =>
      intro idx id
      simp only [builtNodes, List.length_append, noteEntries_length, ih,
        List.length_cons]
      ring

/-- With no `AudioContext` available, `startChord` leaves the engine
state untouched (the guard after `init`/`stopChord` returns). -/
theorem startChord_unavailable (rng : ℕ → ℚ) (notes : List ℤ)
    (instr : Instrument) (timbre : Timbre) (s : EngineState)
    (h : s.ctx = none) :
    startChord false rng notes instr timbre s = s := by
  have hi : init false s = s := by simp [init, h]
  have hs : stopChord s = s := stopChord_of_none s h
  unfold startChord
  rw [hi, hs]
  simp [h]

theorem voiceParams_draw_free (instr : Instrument) (timbre : Timbre)
    (t d d' : ℚ) (h : ¬(instr = .Piano ∧ timbre = .HonkyTonk)) :
    voiceParams instr timbre t d = voiceParams instr timbre t d' := by
  cases instr <;> cases timbre <;> first
    | rfl
    | exact absurd ⟨rfl, rfl⟩ h

theorem builtNodes_draw_free (instr : Instrument) (timbre : Timbre)
    (now : ℚ) (rng rng' : ℕ → ℚ)
    (h : ¬(instr = .Piano ∧ timbre = .HonkyTonk)) :
    ∀ (notes : List ℤ) (idx id : ℕ),
      builtNodes instr timbre now rng idx id notes =
        builtNodes instr timbre now rng' idx id notes := by
  intro notes
  induction notes with
  | nil => intro idx id; rfl
  | cons midi rest ih =>
      intro idx id
      simp only [builtNodes, noteEntries,
        voiceParams_draw_free instr timbre _ (rng idx) (rng' idx) h, ih]

/-- Outside the Piano/HonkyTonk branch the random source is never
consumed: `startChord` is a function of its explicit arguments alone. -/
theorem startChord_rng_irrelevant (avail : Bool) (rng rng' : ℕ → ℚ)
    (notes : List ℤ) (instr : Instrument) (timbre : Timbre)
    (s : EngineState) (h : ¬(instr = .Piano ∧ timbre = .HonkyTonk)) :
    startChord avail rng notes instr timbre s =
      startChord avail rng' notes instr timbre s := by
  unfold startChord
  rcases hc : (stopChord (init avail s)).ctx with _ | now <;>
    rcases hg : (stopChord (init avail s)).masterGain with _ | g <;>
      simp only [hc, hg]
  rw [buildLoop_spec, buildLoop_spec,
    builtNodes_draw_free instr timbre now rng rng' h]

theorem initA_of_some (avail : Bool) (rng : ℕ → ℚ) (rate : ℕ)
    (s : AeState) (h : s.ctxA.isSome) :
    initA avail rng rate s = s := by
  unfold initA
  rcases hc : s.ctxA with _ | now
  · rw [hc] at h; simp at h
  · rfl

theorem stopChordA_fields (s : AeState) :
    (stopChordA s).ctxA = s.ctxA ∧ (stopChordA s).bus = s.bus ∧
    (stopChordA s).busCreations = s.busCreations ∧
    (stopChordA s).timersA = s.timersA := by
  unfold stopChordA
  rcases hc : s.ctxA with _ | now <;> simp [hc]

theorem startChordA_frame (avail : Bool) (rng : ℕ → ℚ) (rate : ℕ)
    (notes : List ℤ) (instr : Instrument) (timbre : Timbre) (s : AeState)
    (h : s.ctxA.isSome) :
    (startChordA avail rng rate notes instr timbre s).bus = s.bus ∧
    (startChordA avail rng rate notes instr timbre s).busCreations =
      s.busCreations ∧
    (startChordA avail rng rate notes instr timbre s).ctxA = s.ctxA := by
  unfold startChordA
  rw [initA_of_some avail rng rate s h]
  rcases hc : s.ctxA with _ | now
  · rw [hc] at h; simp at h
  · have hstop : stopChordA s = { s with activeA := [] } := by
      unfold stopChordA; rw [hc]
    rw [hstop]
    rcases hb : s.bus with _ | b <;> simp [hc, hb]

/-- Once the context exists, no public call touches the mix bus or
constructs anything: the bus, the creation counter and the context are
all preserved. -/
theorem applyA_bus_stable (avail : Bool) (rate : ℕ) (s : AeState)
    (op : AeOp) (h : s.ctxA.isSome) :
    (applyA avail rate s op).bus = s.bus ∧
    (applyA avail rate s op).busCreations = s.busCreations ∧
    ((applyA avail rate s op).ctxA).isSome := by
  cases op with
  | start rng notes instr timbre =>
      have hf := startChordA_frame avail rng rate notes instr timbre s h
      exact ⟨hf.1, hf.2.1, by rw [show (applyA avail rate s
        (.start rng notes instr timbre)).ctxA = s.ctxA from hf.2.2]; exact h⟩
  | stop =>
      have hf := stopChordA_fields s
      exact ⟨hf.2.1, hf.2.2.1, by
        rw [show (applyA avail rate s .stop).ctxA = s.ctxA from hf.1]; exact h⟩
  | play rng notes instr timbre =>
      have hf := startChordA_frame avail rng rate notes instr timbre s h
      exact ⟨hf.1, hf.2.1, by
        show ((playNotesA avail rng rate notes instr timbre s)).ctxA.isSome
        unfold playNotesA
        simp only
        rw [hf.2.2]; exact h⟩
  | fire =>
      have hf := stopChordA_fields { s with timersA := s.timersA.drop 1 }
      exact ⟨hf.2.1, hf.2.2.1, by
        show (fireTimerA s).ctxA.isSome
        unfold fireTimerA
        rw [hf.1]; exact h⟩

theorem initA_inv (avail : Bool) (rng : ℕ → ℚ) (rate : ℕ) (s : AeState)
    (h0 : s.ctxA = none) (h1 : s.busCreations = 0) (h2 : s.bus = none) :
    (initA avail rng rate s).busCreations ≤ 1 ∧
    ((initA avail rng rate s).ctxA = none →
      (initA avail rng rate s).busCreations = 0 ∧
      (initA avail rng rate s).bus = none) ∧
    (∀ b, (initA avail rng rate s).bus = some b →
      b.masterLevel = 3/10 ∧ b.reverbLevel = 7/20) := by
  unfold initA
  rw [h0]
  cases avail
  · simp [h1, h2]
  · refine ⟨by simp [h1], by simp, ?_⟩
    intro b hb
    simp only [if_true] at hb
    simp only [Option.some.injEq] at hb
    rw [← hb]
    exact ⟨rfl, rfl⟩

/-- The mix-bus fields of `startChordA` are exactly those of the
`initA` it performs first: the voice-building part never touches
them. -/
theorem startChordA_busFields (avail : Bool) (rng : ℕ → ℚ) (rate : ℕ)
    (notes : List ℤ) (instr : Instrument) (timbre : Timbre) (s : AeState) :
    (startChordA avail rng rate notes instr timbre s).bus =
      (initA avail rng rate s).bus ∧
    (startChordA avail rng rate notes instr timbre s).busCreations =
      (initA avail rng rate s).busCreations ∧
    (startChordA avail rng rate notes instr timbre s).ctxA =
      (initA avail rng rate s).ctxA := by
  unfold startChordA
  dsimp only
  have hf := stopChordA_fields (initA avail rng rate s)
  split
  · exact ⟨hf.2.1, hf.2.2.1, hf.1⟩
  · exact ⟨hf.2.1, hf.2.2.1, hf.1⟩

/-- The invariant carried across public calls: the bus has been
constructed at most once, only together with the context, and always
with the fixed mix levels 0.3 and 0.35. -/
def busInv (s : AeState) : Prop :=
  s.busCreations ≤ 1 ∧
  (s.ctxA = none → s.busCreations = 0 ∧ s.bus = none) ∧
  (∀ b, s.bus = some b → b.masterLevel = 3/10 ∧ b.reverbLevel = 7/20)

theorem startChordA_inv (avail : Bool) (rng : ℕ → ℚ) (rate : ℕ)
    (notes : List ℤ) (instr : Instrument) (timbre : Timbre) (s : AeState)
    (h : busInv s) :
    busInv (startChordA avail rng rate notes instr timbre s) := by
  have hb := startChordA_busFields avail rng rate notes instr timbre s
  rcases hc : s.ctxA with _ | now
  · have hz := h.2.1 hc
    have hi := initA_inv avail rng rate s hc hz.1 hz.2
    refine ⟨?_, ?_, ?_⟩
    · rw [hb.2.1]; exact hi.1
    · intro hx
      rw [hb.2.2] at hx
      have hy := hi.2.1 hx
      rw [hb.2.1, hb.1]
      exact hy
    · intro b hbb
      rw [hb.1] at hbb
      exact hi.2.2 b hbb
  · have hiid : initA avail rng rate s = s :=
      initA_of_some avail rng rate s (by rw [hc]; rfl)
    rw [hiid] at hb
    refine ⟨?_, ?_, ?_⟩
    · rw [hb.2.1]; exact h.1
    · intro hx; rw [hb.2.2, hc] at hx; cases hx
    · intro b hbb; rw [hb.1] at hbb; exact h.2.2 b hbb

theorem applyA_inv (avail : Bool) (rate : ℕ) (s : AeState) (op : AeOp)
    (h : busInv s) : busInv (applyA avail rate s op) := by
  cases op with
  | start rng notes instr timbre =>
      exact startChordA_inv avail rng rate notes instr timbre s h
  | stop =>
      have hf := stopChordA_fields s
      show busInv (stopChordA s)
      refine ⟨?_, ?_, ?_⟩
      · rw [hf.2.2.1]; exact h.1
      · intro hx
        rw [hf.1] at hx
        rw [hf.2.2.1, hf.2.1]
        exact h.2.1 hx
      · intro b hbb
        rw [hf.2.1] at hbb
        exact h.2.2 b hbb
  | play rng notes instr timbre =>
      have hs := startChordA_inv avail rng rate notes instr timbre s h
      show busInv { startChordA avail rng rate notes instr timbre s with
        timersA := (startChordA avail rng rate notes instr timbre s).timersA ++ [6/5] }
      exact ⟨hs.1, hs.2.1, hs.2.2⟩
  | fire =>
      have hf := stopChordA_fields { s with timersA := s.timersA.drop 1 }
      show busInv (stopChordA { s with timersA := s.timersA.drop 1 })
      refine ⟨?_, ?_, ?_⟩
      · rw [hf.2.2.1]; exact h.1
      · intro hx
        rw [hf.1] at hx
        rw [hf.2.2.1, hf.2.1]
        exact h.2.1 hx
      · intro b hbb
        rw [hf.2.1] at hbb
        exact h.2.2 b hbb

theorem foldA_inv (avail : Bool) (rate : ℕ) :
    ∀ (ops : List AeOp) (s : AeState), busInv s →
      busInv (ops.foldl (applyA avail rate) s) := by
  intro ops
  induction ops with
  | nil => intro s h; exact h
  | cons op rest ih =>
      intro s h
      exact ih (applyA avail rate s op) (applyA_inv avail rate s op h)

theorem impulseEnvelope_nonneg (len decay i : ℕ) (hi : i ≤ len) :
    0 ≤ impulseEnvelope len decay i := by
  unfold impulseEnvelope
  apply pow_nonneg
  rcases Nat.eq_zero_or_pos len with h0 | hpos
  · subst h0; simp
  · have h1 : (i : ℚ) / (len : ℚ) ≤ 1 := by
      rw [div_le_one (by exact_mod_cast hpos)]
      exact_mod_cast hi
    linarith

theorem impulseEnvelope_antitone (len decay i j : ℕ) (hij : i ≤ j)
    (hj : j ≤ len) :
    impulseEnvelope len decay j ≤ impulseEnvelope len decay i := by
  unfold impulseEnvelope
  refine pow_le_pow_left₀ ?_ ?_ decay
  · rcases Nat.eq_zero_or_pos len with h0 | hpos
    · subst h0; simp
    · have h1 : (j : ℚ) / (len : ℚ) ≤ 1 := by
        rw [div_le_one (by exact_mod_cast hpos)]
        exact_mod_cast hj
      linarith
  · rcases Nat.eq_zero_or_pos len with h0 | hpos
    · subst h0; simp
    · have h1 : (i : ℚ) / (len : ℚ) ≤ (j : ℚ) / (len : ℚ) := by
        gcongr
      linarith

theorem impulseSample_bound (len decay i : ℕ) (r : ℚ) (hi : i ≤ len)
    (h0 : 0 ≤ r) (h1 : r ≤ 1) :
    |(r * 2 - 1) * impulseEnvelope len decay i| ≤
      impulseEnvelope len decay i := by
  rw [abs_mul]
  have he := impulseEnvelope_nonneg len decay i hi
  rw [abs_of_nonneg he]
  have hr : |r * 2 - 1| ≤ 1 := by
    rw [abs_le]
    constructor <;> linarith
  calc |r * 2 - 1| * impulseEnvelope len decay i
      ≤ 1 * impulseEnvelope len decay i :=
        mul_le_mul_of_nonneg_right hr he
    _ = impulseEnvelope len decay i := one_mul _

theorem generateReverbImpulse_left_draws (rng rng2 : ℕ → ℚ)
    (rate duration decay : ℕ) (h : ∀ k, rng2 (2 * k) = rng (2 * k)) :
    (generateReverbImpulse rng2 rate duration decay).1 =
      (generateReverbImpulse rng rate duration decay).1 := by
  unfold generateReverbImpulse
  dsimp only
  apply List.map_congr_left
  intro i _
  rw [h i]

theorem builtNodes_start_nonViolin (instr : Instrument) (timbre : Timbre)
    (now : ℚ) (rng : ℕ → ℚ) (hv : ¬instr = .Violin) :
    ∀ (notes : List ℤ) (idx id : ℕ),
      (builtNodes instr timbre now rng idx id notes).map ActiveNode.start =
        (List.range' idx notes.length).map (noteStartTime instr now) := by
  intro notes
  induction notes with
  | nil => intro idx id; simp [builtNodes]
  | cons m rest ih =>
      intro idx id
      simp only [builtNodes, noteEntries, if_neg hv, List.length_cons,
        List.range'_succ, List.map_append, List.map_cons, ih]
      simp [ActiveNode.start]

theorem builtNodes_start_violin (timbre : Timbre) (now : ℚ) (rng : ℕ → ℚ) :
    ∀ (notes : List ℤ) (idx id : ℕ),
      (builtNodes .Violin timbre now rng idx id notes).map ActiveNode.start =
        (List.range' idx notes.length).flatMap
          (fun k => [noteStartTime .Violin now k, noteStartTime .Violin now k]) := by
  intro notes
  induction notes with
  | nil => intro idx id; simp [builtNodes]
  | cons m rest ih =>
      intro idx id
      simp only [builtNodes, noteEntries, if_pos rfl, List.length_cons,
        List.range'_succ, List.map_append, List.map_cons, ih, List.flatMap_cons]
      simp [ActiveNode.start]

/-- C2: the pitch converter computes `440 * 2 ^ ((n - 69) / 12)` Hz for
every integer note index `n`; in particular `midiToFreq 69 = 440` and
`midiToFreq 81 = 880`, and the function is strictly monotonically
increasing.  It is a pure total Lean function, so it is deterministic
with no error conditions by construction. -/
theorem claim_pitch_conversion :
    midiToFreq 69 = 440 ∧ midiToFreq 81 = 880 ∧ StrictMono midiToFreq ∧
      ∀ n : ℤ, midiToFreq n = 440 * (2 : ℝ) ^ (((n : ℝ) - 69) / 12) := by
  refine ⟨?_, ?_, ?_, fun n => rfl⟩
  · unfold midiToFreq
    rw [show ((((69 : ℤ)) : ℝ) - 69) / 12 = 0 by norm_num, Real.rpow_zero]
    norm_num
  · unfold midiToFreq
    rw [show ((((81 : ℤ)) : ℝ) - 69) / 12 = 1 by norm_num, Real.rpow_one]
    norm_num
  · intro a b hab
    unfold midiToFreq
    have hc : ((a : ℝ) - 69) / 12 < ((b : ℝ) - 69) / 12 := by
      have hr : (a : ℝ) < (b : ℝ) := by exact_mod_cast hab
      linarith
    have h2 := (Real.rpow_lt_rpow_left_iff (by norm_num : (1:ℝ) < 2)).mpr hc
    exact mul_lt_mul_of_pos_left h2 (by norm_num)

/-- C4: `stopChord` is idempotent and defensive — a second consecutive
call (and any call on an empty registry) leaves the whole state, hence
the scheduled-event log, untouched; on a non-empty registry it invokes
every registered entry's release at the current clock time (in
registration order) and clears the registry; and before the engine has
initialized (`ctx = null`, no `AudioContext` obtainable) `stopChord`
and `startChord` are audible no-ops and `playNotes` only records its
timer — all are total functions, so nothing throws. -/
theorem claim_stop_idempotent :
    (∀ s : EngineState, stopChord (stopChord s) = stopChord s) ∧
    (∀ s : EngineState, s.activeNodes = [] → stopChord s = s) ∧
    (∀ (s : EngineState) (now : ℚ), s.ctx = some now →
      stopChord s =
        { s with
          events := s.events ++
            s.activeNodes.flatMap (fun nd => releaseEvents nd now),
          activeNodes := [] }) ∧
    (∀ s : EngineState, s.ctx = none →
      stopChord s = s ∧
      (∀ (rng : ℕ → ℚ) (notes : List ℤ) (instr : Instrument) (timbre : Timbre),
        startChord false rng notes instr timbre s = s ∧
        (playNotes false rng notes instr timbre s).activeNodes = s.activeNodes ∧
        (playNotes false rng notes instr timbre s).events = s.events)) := by
  refine ⟨?_, ?_, ?_, ?_⟩
  · intro s
    rcases hc : s.ctx with _ | now
    · rw [stopChord_of_none s hc, stopChord_of_none s hc]
    · exact stopChord_of_empty _ (stopChord_activeNodes s (by rw [hc]; rfl))
  · exact fun s h => stopChord_of_empty s h
  · exact fun s now hc => stopChord_eq s now hc
  · intro s hc
    refine ⟨stopChord_of_none s hc, ?_⟩
    intro rng notes instr timbre
    have h1 := startChord_unavailable rng notes instr timbre s hc
    refine ⟨h1, ?_, ?_⟩
    · show (playNotes false rng notes instr timbre s).activeNodes = s.activeNodes
      unfold playNotes
      rw [h1]
    · show (playNotes false rng notes instr timbre s).events = s.events
      unfold playNotes
      rw [h1]

theorem claim_stop_idempotent_witness :
    stopChord initialState = initialState :=
  (claim_stop_idempotent.2.2.2 initialState rfl).1

/-- C1: single-active-chord invariant.  On an initialized engine,
after `startChord A` then `startChord B` with no intervening
`stopChord`, the registry holds exactly the entries built for `B`;
the first call's registry held exactly the entries built for `A`; and
the second call's additions to the event log are the release calls of
every one of `A`'s entries followed by `B`'s node starts — the old
chord is drained before any new voice is built. -/
theorem claim_single_active_chord (s : EngineState) (now g : ℚ)
    (rngA rngB : ℕ → ℚ) (A B : List ℤ) (iA iB : Instrument)
    (tA tB : Timbre) (hc : s.ctx = some now) (hg : s.masterGain = some g) :
    (startChord true rngA A iA tA s).activeNodes =
      builtNodes iA tA now rngA 0 s.nextId A ∧
    (startChord true rngB B iB tB (startChord true rngA A iA tA s)).activeNodes =
      builtNodes iB tB now rngB 0 (startChord true rngA A iA tA s).nextId B ∧
    (startChord true rngB B iB tB (startChord true rngA A iA tA s)).events =
      (startChord true rngA A iA tA s).events ++
        ((startChord true rngA A iA tA s).activeNodes.flatMap
          (fun nd => releaseEvents nd now)) ++
        builtEvents iB now 0 (startChord true rngA A iA tA s).nextId B := by
  have h1 := startChord_spec true rngA A iA tA s now g hc hg
  have hc1 : (startChord true rngA A iA tA s).ctx = some now := by rw [h1]
  have hg1 : (startChord true rngA A iA tA s).masterGain = some g := by rw [h1]
  have h2 := startChord_spec true rngB B iB tB
    (startChord true rngA A iA tA s) now g hc1 hg1
  refine ⟨?_, ?_, ?_⟩
  · rw [h1]
  · rw [h2]
  · rw [h2]

theorem claim_single_active_chord_witness :
    (startChord true (fun _ => 0) [60, 64] .Piano .Grand
        (init true initialState)).activeNodes =
      builtNodes .Piano .Grand 0 (fun _ => 0) 0 0 [60, 64] :=
  (claim_single_active_chord (init true initialState) 0 (2/5)
    (fun _ => 0) (fun _ => 0) [60, 64] [67] .Piano .Guitar .Grand .Grand
    rfl rfl).1

/-- C3 counterexample: for the Violin, `startChord` pushes two registry
entries per note — the vibrato LFO's cleanup pair and the note's main
pair — so a one-note Violin chord leaves 2 entries, not 1. -/
theorem claim_voice_count_cex :
    ¬((startChord true (fun _ => 0) [60] .Violin .Grand
        initialState).activeNodes.length = 1) ∧
    (startChord true (fun _ => 0) [60] .Violin .Grand
        initialState).activeNodes.length = 2 := by
  have hs := startChord_spec true (fun _ => 0) [60] .Violin .Grand
    (init true initialState) 0 (2/5) rfl rfl
  have hii : init true (init true initialState) = init true initialState :=
    init_of_some (init true initialState) (init_ctx_isSome initialState)
  have hi : startChord true (fun _ => 0) [60] .Violin .Grand initialState =
      startChord true (fun _ => 0) [60] .Violin .Grand
        (init true initialState) := by
    unfold startChord
    rw [hii]
  rw [hi, hs]
  constructor
  · simp [builtNodes, noteEntries, entriesPerNote]
  · simp [builtNodes, noteEntries, entriesPerNote]

/-- C3 amended: on an initialized engine `startChord` registers exactly
`entriesPerNote` registry entries per input note — one for Piano and
Guitar, two for Violin (whose vibrato LFO gets its own
`{stop, release}` pair) — so the concrete spec examples hold: 3 entries
for `[60, 64, 67]` on Piano/Grand, 0 entries for the empty list on
every instrument and timbre. -/
theorem claim_voice_count_amended (s : EngineState) (now g : ℚ)
    (rng : ℕ → ℚ) (notes : List ℤ) (instr : Instrument) (timbre : Timbre)
    (hc : s.ctx = some now) (hg : s.masterGain = some g) :
    (startChord true rng notes instr timbre s).activeNodes.length =
      entriesPerNote instr * notes.length ∧
    entriesPerNote .Piano = 1 ∧ entriesPerNote .Guitar = 1 ∧
    entriesPerNote .Violin = 2 ∧
    (startChord true rng [] instr timbre s).activeNodes.length = 0 := by
  have hs := startChord_spec true rng notes instr timbre s now g hc hg
  have hs0 := startChord_spec true rng [] instr timbre s now g hc hg
  refine ⟨?_, rfl, rfl, rfl, ?_⟩
  · rw [hs]
    exact builtNodes_length instr timbre now rng notes 0 s.nextId
  · rw [hs0]
    simp [builtNodes]

theorem claim_voice_count_amended_witness :
    (startChord true (fun _ => 0) [60, 64, 67] .Piano .Grand
        (init true initialState)).activeNodes.length = 1 * 3 :=
  (claim_voice_count_amended (init true initialState) 0 (2/5) (fun _ => 0)
    [60, 64, 67] .Piano .Grand rfl rfl).1

/-- C5: staggering.  In the `part_001` variant consecutive Guitar and
Violin notes start exactly 0.03 s apart and Piano notes all share one
start time; in the `audioEngine.ts` variant the constant is 0.04 s;
both constants lie in the 30-40 ms range.  The last two conjuncts tie
the per-index start time to the registry entries `startChord` actually
builds. -/
theorem claim_staggering (now : ℚ) :
    (∀ i : ℕ,
      noteStartTime .Guitar now (i+1) - noteStartTime .Guitar now i = 3/100) ∧
    (∀ i : ℕ,
      noteStartTime .Violin now (i+1) - noteStartTime .Violin now i = 3/100) ∧
    ((30 : ℚ)/1000 ≤ 3/100 ∧ (3 : ℚ)/100 ≤ 40/1000) ∧
    (∀ i j : ℕ, noteStartTime .Piano now i = noteStartTime .Piano now j) ∧
    (∀ i : ℕ,
      noteStartTimeA .Guitar now (i+1) - noteStartTimeA .Guitar now i = 1/25) ∧
    (∀ i : ℕ,
      noteStartTimeA .Violin now (i+1) - noteStartTimeA .Violin now i = 1/25) ∧
    ((30 : ℚ)/1000 ≤ 1/25 ∧ (1 : ℚ)/25 ≤ 40/1000) ∧
    (∀ i j : ℕ, noteStartTimeA .Piano now i = noteStartTimeA .Piano now j) ∧
    (∀ (timbre : Timbre) (rng : ℕ → ℚ) (notes : List ℤ),
      (builtNodes .Guitar timbre now rng 0 0 notes).map ActiveNode.start =
        (List.range' 0 notes.length).map (noteStartTime .Guitar now)) ∧
    (∀ (timbre : Timbre) (rng : ℕ → ℚ) (notes : List ℤ),
      (builtNodes .Piano timbre now rng 0 0 notes).map ActiveNode.start =
        (List.range' 0 notes.length).map (noteStartTime .Piano now)) := by
  refine ⟨?_, ?_, ?_, ?_, ?_, ?_, ?_, ?_, ?_, ?_⟩
  · intro i
    simp only [noteStartTime]
    norm_num
    push_cast
    ring
  · intro i
    simp only [noteStartTime]
    norm_num
    push_cast
    ring
  · constructor <;> norm_num
  · intro i j
    simp [noteStartTime]
  · intro i
    simp only [noteStartTimeA]
    norm_num
    push_cast
    ring
  · intro i
    simp only [noteStartTimeA]
    norm_num
    push_cast
    ring
  · constructor <;> norm_num
  · intro i j
    simp [noteStartTimeA]
  · intro timbre rng notes
    exact builtNodes_start_nonViolin .Guitar timbre now rng (by simp) notes 0 0
  · intro timbre rng notes
    exact builtNodes_start_nonViolin .Piano timbre now rng (by simp) notes 0 0

/-- C6: one-shot playback.  `playNotes` is `startChord` immediately
plus an unconditionally recorded 1.2 s auto-stop timer; whenever that
timer fires the registry is empty afterwards — in particular after a
plain `playNotes`, but also when an explicit `startChord` happened in
between, in which case the timer releases the newer chord's voices
(firing is exactly `stopChord` on whatever is registered at that
moment); and neither `startChord` nor `stopChord` cancels a pending
timer. -/
theorem claim_playNotes_one_shot :
    (∀ (avail : Bool) (rng : ℕ → ℚ) (notes : List ℤ) (instr : Instrument)
        (timbre : Timbre) (s : EngineState),
      playNotes avail rng notes instr timbre s =
        { startChord avail rng notes instr timbre s with
          timers := (startChord avail rng notes instr timbre s).timers ++ [6/5] }) ∧
    (∀ s : EngineState,
      fireTimer s = stopChord { s with timers := s.timers.drop 1 }) ∧
    (∀ (rng : ℕ → ℚ) (notes : List ℤ) (instr : Instrument) (timbre : Timbre)
        (s : EngineState),
      (fireTimer (playNotes true rng notes instr timbre s)).activeNodes = []) ∧
    (∀ (rng1 rng2 : ℕ → ℚ) (A B : List ℤ) (i1 i2 : Instrument)
        (t1 t2 : Timbre) (s : EngineState),
      (fireTimer (startChord true rng2 B i2 t2
          (playNotes true rng1 A i1 t1 s))).activeNodes = []) ∧
    (∀ s : EngineState, (stopChord s).timers = s.timers) ∧
    (∀ (avail : Bool) (rng : ℕ → ℚ) (notes : List ℤ) (instr : Instrument)
        (timbre : Timbre) (s : EngineState),
      (startChord avail rng notes instr timbre s).timers = s.timers) := by
  refine ⟨fun _ _ _ _ _ _ => rfl, fun _ => rfl, ?_, ?_,
    fun s => stopChord_timers s, fun a r n i t s => startChord_timers a r n i t s⟩
  · intro rng notes instr timbre s
    apply stopChord_activeNodes
    show ((playNotes true rng notes instr timbre s).ctx).isSome
    unfold playNotes
    exact startChord_ctx_isSome rng notes instr timbre s
  · intro rng1 rng2 A B i1 i2 t1 t2 s
    apply stopChord_activeNodes
    show ((startChord true rng2 B i2 t2
      (playNotes true rng1 A i1 t1 s)).ctx).isSome
    exact startChord_ctx_isSome rng2 B i2 t2 (playNotes true rng1 A i1 t1 s)

/-- C7 counterexample: the windowed mean-squared energy of the
generated buffer is not monotonically non-increasing for every random
draw — with the admissible stream `rngCex` the left channel's first
window (2 samples) is silent while its second window is not, so the
energy increases. -/
theorem claim_impulse_energy_cex :
    windowEnergy (generateReverbImpulse rngCex 2 2 2).1 2 0 <
      windowEnergy (generateReverbImpulse rngCex 2 2 2).1 2 1 := by
  norm_num [generateReverbImpulse, impulseEnvelope, windowEnergy, rngCex,
    show List.range 4 = [0, 1, 2, 3] from rfl]

/-- C7 amended: each channel of the generated impulse holds
`duration * sampleRate` samples, sample `i` being
`(draw * 2 - 1) * (1 - i/length)^decay`, the two channels consuming
disjoint draws of the random stream (left the even-indexed draws,
right the odd ones); the deterministic decay envelope is monotonically
non-increasing in the sample index and bounds every sample's magnitude
whenever the draws lie in [0, 1] — but the windowed energy of a
particular random realization need not be monotone (see the
counterexample). -/
theorem claim_impulse_generator_amended (rng : ℕ → ℚ)
    (rate duration decay : ℕ) :
    (generateReverbImpulse rng rate duration decay).1.length =
      duration * rate ∧
    (generateReverbImpulse rng rate duration decay).2.length =
      duration * rate ∧
    (generateReverbImpulse rng rate duration decay).1 =
      (List.range (rate * duration)).map
        (fun i => (rng (2 * i) * 2 - 1) *
          impulseEnvelope (rate * duration) decay i) ∧
    (generateReverbImpulse rng rate duration decay).2 =
      (List.range (rate * duration)).map
        (fun i => (rng (2 * i + 1) * 2 - 1) *
          impulseEnvelope (rate * duration) decay i) ∧
    (∀ i j : ℕ, i ≤ j → j ≤ rate * duration →
      impulseEnvelope (rate * duration) decay j ≤
        impulseEnvelope (rate * duration) decay i) ∧
    (∀ (i : ℕ) (r : ℚ), i ≤ rate * duration → 0 ≤ r → r ≤ 1 →
      |(r * 2 - 1) * impulseEnvelope (rate * duration) decay i| ≤
        impulseEnvelope (rate * duration) decay i) ∧
    (∀ rng2 : ℕ → ℚ, (∀ k, rng2 (2 * k) = rng (2 * k)) →
      (generateReverbImpulse rng2 rate duration decay).1 =
        (generateReverbImpulse rng rate duration decay).1) := by
  refine ⟨?_, ?_, rfl, rfl, ?_, ?_, ?_⟩
  · simp only [generateReverbImpulse, List.length_map, List.length_range]
    exact Nat.mul_comm rate duration
  · simp only [generateReverbImpulse, List.length_map, List.length_range]
    exact Nat.mul_comm rate duration
  · exact fun i j hij hj =>
      impulseEnvelope_antitone (rate * duration) decay i j hij hj
  · exact fun i r hi h0 h1 =>
      impulseSample_bound (rate * duration) decay i r hi h0 h1
  · exact fun rng2 h =>
      generateReverbImpulse_left_draws rng rng2 rate duration decay h

theorem claim_impulse_generator_amended_witness :
    impulseEnvelope 4 2 3 ≤ impulseEnvelope 4 2 1 :=
  (claim_impulse_generator_amended rngCex 2 2 2).2.2.2.2.1 1 3
    (by norm_num) (by norm_num)

/-- C8 counterexample: after a Violin chord is started and stopped, the
event log shows the vibrato LFO oscillator (node id 0) was started but
no hard stop was ever scheduled for it — its registry entry's release
is a no-op — while the audible tone oscillator (node id 1) was
stopped.  So not every oscillator a Violin voice owns receives a stop
within the release overlap. -/
theorem claim_release_bounds_cex :
    ((stopChord (startChord true (fun _ => 0) [60] .Violin .Grand
        initialState)).events.any (startsOsc 0) = true) ∧
    ((stopChord (startChord true (fun _ => 0) [60] .Violin .Grand
        initialState)).events.all (fun e => !(stopsOsc 0 e)) = true) ∧
    ((stopChord (startChord true (fun _ => 0) [60] .Violin .Grand
        initialState)).events.any (stopsOsc 1) = true) := by
  refine ⟨?_, ?_, ?_⟩ <;> rfl

/-- C8 amended: invoking a main registry entry's release at time `t`
cancels its scheduled gain automation, pins the current gain value,
fades to 0.001 by `t + 0.3` and hard-stops that entry's oscillator at
exactly `t + 0.35`; every event a release schedules lies no later than
`t + 0.35`, and on an initialized engine `stopChord` logs such a stop
for every registered main entry.  However the Violin vibrato LFO is
registered as a separate entry whose release is the no-op `() => {}`,
so no stop is ever scheduled for the LFO oscillator (see the
counterexample). -/
theorem claim_release_bounds_amended :
    (∀ (id : ℕ) (midi : ℤ) (t0 : ℚ) (pr : VoiceParams) (t : ℚ),
      releaseEvents (.main id midi t0 pr) t =
        [.gainCancel id t, .gainSetCurrent id t,
         .gainRampExp id (1/1000) (t + 3/10), .oscStop id (t + 7/20)]) ∧
    (∀ (nd : ActiveNode) (t : ℚ) (e : AEvent), e ∈ releaseEvents nd t →
      eventTime e ≤ t + 7/20) ∧
    (∀ (id : ℕ) (t0 t : ℚ), releaseEvents (.vibLfo id t0) t = []) ∧
    (∀ (s : EngineState) (now : ℚ), s.ctx = some now →
      ∀ nd ∈ s.activeNodes,
        ∀ (id : ℕ) (midi : ℤ) (t0 : ℚ) (pr : VoiceParams),
          nd = .main id midi t0 pr →
          AEvent.oscStop id (now + 7/20) ∈ (stopChord s).events) := by
  refine ⟨fun _ _ _ _ _ => rfl, ?_, fun _ _ _ => rfl, ?_⟩
  · intro nd t e he
    cases nd with
    | main id midi t0 pr =>
        simp only [releaseEvents, List.mem_cons, List.not_mem_nil,
          or_false] at he
        rcases he with h | h | h | h <;> subst h <;>
          simp [eventTime] <;> linarith
    | vibLfo id t0 => simp [releaseEvents] at he
  · intro s now hc nd hmem id midi t0 pr hnd
    rw [stopChord_eq s now hc]
    simp only
    apply List.mem_append.mpr
    right
    apply List.mem_flatMap.mpr
    refine ⟨nd, hmem, ?_⟩
    subst hnd
    simp [releaseEvents]

theorem claim_release_bounds_amended_witness :
    eventTime (AEvent.gainCancel 1 0) ≤ 0 + 7/20 :=
  claim_release_bounds_amended.2.1
    (.main 1 60 0 (voiceParams .Violin .Grand 0 0)) 0
    (AEvent.gainCancel 1 0) (by simp [releaseEvents])

/-- C9: mix-bus frame condition.  Once the context exists, no public
call changes the bus or the construction counter (so the impulse
buffer is never recomputed or mutated); over any sequence of public
calls from the fresh engine the context and bus are constructed at
most once; whenever the bus exists its master gain is 0.3 and its
reverb-send gain 0.35; and the one construction computes the impulse
as `generateReverbImpulse` over a 2-second buffer with decay 2. -/
theorem claim_mix_bus_once (avail : Bool) (rate : ℕ) :
    (∀ (s : AeState) (op : AeOp), (s.ctxA).isSome →
      (applyA avail rate s op).bus = s.bus ∧
      (applyA avail rate s op).busCreations = s.busCreations) ∧
    (∀ ops : List AeOp,
      (ops.foldl (applyA avail rate) initialAeState).busCreations ≤ 1) ∧
    (∀ (ops : List AeOp) (b : MixBus),
      (ops.foldl (applyA avail rate) initialAeState).bus = some b →
      b.masterLevel = 3/10 ∧ b.reverbLevel = 7/20) ∧
    (∀ (rng : ℕ → ℚ) (s : AeState), s.ctxA = none →
      (initA true rng rate s).bus =
        some ⟨3/10, 7/20, generateReverbImpulse rng rate 2 2⟩) := by
  have hinv : busInv initialAeState :=
    ⟨by simp [initialAeState], fun _ => ⟨rfl, rfl⟩,
     fun b hb => by simp [initialAeState] at hb⟩
  refine ⟨?_, ?_, ?_, ?_⟩
  · intro s op h
    exact ⟨(applyA_bus_stable avail rate s op h).1,
      (applyA_bus_stable avail rate s op h).2.1⟩
  · intro ops
    exact (foldA_inv avail rate ops initialAeState hinv).1
  · intro ops b hb
    exact (foldA_inv avail rate ops initialAeState hinv).2.2 b hb
  · intro rng s hc
    unfold initA
    rw [hc]
    simp

theorem claim_mix_bus_once_witness :
    (applyA true 2 (initA true rngCex 2 initialAeState) .stop).bus =
      (initA true rngCex 2 initialAeState).bus :=
  ((claim_mix_bus_once true 2).1 (initA true rngCex 2 initialAeState)
    .stop (by rfl)).1

/-- C10: determinism of voice construction.  In the `part_001` variant
every branch except Piano/HonkyTonk ignores the random stream, so two
`startChord` runs with identical arguments coincide; the
Piano/HonkyTonk branch draws its detune from the random source in
[-5, +5), so two runs with identical inputs can differ (witnessed by
the draws 0 and 1/2); the `audioEngine.ts` variant's HonkyTonk branch
instead uses the constant detune 15 and its voice construction is
independent of the random stream. -/
theorem claim_voice_determinism :
    (∀ (avail : Bool) (rng rng2 : ℕ → ℚ) (notes : List ℤ)
        (instr : Instrument) (timbre : Timbre) (s : EngineState),
      ¬(instr = .Piano ∧ timbre = .HonkyTonk) →
      startChord avail rng notes instr timbre s =
        startChord avail rng2 notes instr timbre s) ∧
    (startChord true (fun _ => 0) [60] .Piano .HonkyTonk initialState ≠
      startChord true (fun _ => 1/2) [60] .Piano .HonkyTonk initialState) ∧
    ((aeOscillators .Piano .HonkyTonk).map AeOsc.detune = [0, 15]) ∧
    (∀ (avail : Bool) (rng rng2 : ℕ → ℚ) (rate : ℕ) (notes : List ℤ)
        (instr : Instrument) (timbre : Timbre) (s : AeState),
      (s.ctxA).isSome →
      startChordA avail rng rate notes instr timbre s =
        startChordA avail rng2 rate notes instr timbre s) := by
  refine ⟨?_, ?_, rfl, ?_⟩
  · exact fun avail rng rng2 notes instr timbre s h =>
      startChord_rng_irrelevant avail rng rng2 notes instr timbre s h
  · intro heq
    have hii : init true (init true initialState) = init true initialState :=
      init_of_some (init true initialState) (init_ctx_isSome initialState)
    have e1 : startChord true (fun _ => 0) [60] .Piano .HonkyTonk
          initialState =
        startChord true (fun _ => 0) [60] .Piano .HonkyTonk
          (init true initialState) := by
      unfold startChord
      rw [hii]
    have e2 : startChord true (fun _ => (1 : ℚ)/2) [60] .Piano .HonkyTonk
          initialState =
        startChord true (fun _ => (1 : ℚ)/2) [60] .Piano .HonkyTonk
          (init true initialState) := by
      unfold startChord
      rw [hii]
    rw [e1, e2,
      startChord_spec true (fun _ => 0) [60] .Piano .HonkyTonk
        (init true initialState) 0 (2/5) rfl rfl,
      startChord_spec true (fun _ => (1 : ℚ)/2) [60] .Piano .HonkyTonk
        (init true initialState) 0 (2/5) rfl rfl] at heq
    have h3 := congrArg EngineState.activeNodes heq
    simp [builtNodes, noteEntries, voiceParams] at h3
    norm_num at h3
  · intro avail rng rng2 rate notes instr timbre s h
    unfold startChordA
    rw [initA_of_some avail rng rate s h, initA_of_some avail rng2 rate s h]

theorem claim_voice_determinism_witness :
    startChord true (fun _ => 0) [60] .Guitar .Grand initialState =
      startChord true (fun _ => 1) [60] .Guitar .Grand initialState :=
  claim_voice_determinism.1 true (fun _ => 0) (fun _ => 1) [60]
    .Guitar .Grand initialState (by simp)

end ChordMaster
